import Mathlib

deriving instance DecidableEq for Except

/-!
Verification of the TaskPilot MCP tutorial repository.

The development shallowly embeds:
* the task-store tools of `concepts/task_pilot_server.py`
  (`add_task`, `list_tasks`, `complete_task`, `clear_completed`);
* the result normalization `extract_text_or_json_as_text` of
  `concepts/client_llm_best_practices.py`;
* the tool-call orchestration loop `TaskPilotAgent.chat` of
  `concepts/client_llm.py`;
* the spec-level `bulk_import` tool (absent from the sources).

Python dictionaries preserve insertion order, so the in-memory store
`STORE : Dict[str, dict]` is embedded as an association list.  External
collaborators (the uuid generator, `json.loads`, `json.dumps`, the LLM,
the MCP transport) are parameters of the embedded functions.
-/

namespace TaskPilot

/-- Python's `str.strip()` on ASCII whitespace: drop whitespace from both
ends, keeping the interior intact. -/
def isSpace (c : Char) : Bool :=
  c == ' ' || c == '\t' || c == '\n' || c == '\r' || c == '\x0b' || c == '\x0c'

/-- Embedding of Python `s.strip()`. -/
def pyStrip (s : String) : String :=
  String.mk (((s.toList.dropWhile isSpace).reverse.dropWhile isSpace).reverse)

/-- The `Task` pydantic model of `task_pilot_server.py`. -/
structure Task where
  id : String
  title : String
  done : Bool
  tags : List String
deriving DecidableEq

/-- The in-memory `STORE : Dict[str, dict]`, as an insertion-ordered
association list from task id to task record. -/
abbrev Store := List (String × Task)

/-- Dict update `STORE[k] = v`: replace the value at an existing key in
place, or append a fresh key at the end (Python dict semantics). -/
def Store.set : Store → String → Task → Store
  | [], k, v => [(k, v)]
  | p :: rest, k, v => if p.1 == k then (k, v) :: rest else p :: Store.set rest k v

/-- Dict lookup `STORE[k]` (as an option). -/
def Store.get? : Store → String → Option Task
  | [], _ => none
  | p :: rest, k => if p.1 == k then some p.2 else Store.get? rest k

/-- Dict membership `k in STORE`. -/
def Store.containsKey : Store → String → Bool
  | [], _ => false
  | p :: rest, k => p.1 == k || Store.containsKey rest k

/-- Result of one tool call: the returned value or the raised `ValueError`
message, the store after the call, and the list of store snapshots passed
to `save(STORE)` during the call, in order. -/
structure OpResult (α : Type) where
  ret : Except String α
  store : Store
  saves : List Store

/-- `add_task` of `task_pilot_server.py`.  `uuid4().hex` is external, so
the fresh id is a parameter; `title` may be `None` (`title or ""`). -/
def add_task (newId : String) (title : Option String) (tags : Option (List String))
    (store : Store) : OpResult Task :=
  let t := pyStrip (title.getD "")
  if t = "" then
    ⟨Except.error "Title cannot be empty.", store, []⟩
  else
    let task : Task := ⟨newId, t, false, (tags.getD []).filter (fun x => !(pyStrip x == ""))⟩
    let store2 := Store.set store task.id task
    ⟨Except.ok task, store2, [store2]⟩

/-- `list_tasks` of `task_pilot_server.py`. -/
def list_tasks (include_done : Bool) (store : Store) : List Task :=
  let tasks := store.map (fun p => p.2)
  if include_done then tasks else tasks.filter (fun t => !t.done)

/-- `complete_task` of `task_pilot_server.py`.  Note the write goes to key
`t.id` (the record's id field), exactly as in the source. -/
def complete_task (task_id : String) (store : Store) : OpResult Task :=
  match Store.get? store task_id with
  | none => ⟨Except.error ("Task not found: " ++ task_id), store, []⟩
  | some t0 =>
    let t : Task := ⟨t0.id, t0.title, true, t0.tags⟩
    let store2 := Store.set store t.id t
    ⟨Except.ok t, store2, [store2]⟩

/-- `clear_completed` of `task_pilot_server.py`: delete every entry whose
record is `done`, count them, and save only when the count is nonzero. -/
def clear_completed (store : Store) : OpResult Nat :=
  let store2 := store.filter (fun p => !p.2.done)
  let removed := store.countP (fun p => p.2.done)
  ⟨Except.ok removed, store2, if removed = 0 then [] else [store2]⟩

/-- The store invariant of the spec: every entry's key equals its record's
`id` field and every title is non-empty. -/
def StoreInv (s : Store) : Prop :=
  ∀ p ∈ s, p.1 = p.2.id ∧ p.2.title ≠ ""

instance (s : Store) : Decidable (StoreInv s) :=
  inferInstanceAs (Decidable (∀ p ∈ s, p.1 = p.2.id ∧ p.2.title ≠ ""))

/-! ### Result normalization (`client_llm_best_practices.py`) -/

/-- JSON values, as carried by MCP content items and assembled by the
normalizer before serialization. -/
inductive JVal where
  | jnull
  | jbool (b : Bool)
  | jnum (n : Int)
  | jstr (s : String)
  | jarr (xs : List JVal)
  | jobj (fields : List (String × JVal))

/-- One MCP content item: tagged JSON, tagged text, or anything else
(items whose `type` is neither, or which lack the payload attribute). -/
inductive ContentItem where
  | json (v : JVal)
  | text (s : String)
  | other

/-- The single pass of `extract_text_or_json_as_text` that appends each
item's payload to `json_items` or `texts` in declaration order. -/
def collectItems : List ContentItem → List JVal × List String
  | [] => ([], [])
  | ContentItem.json v :: rest =>
    let r := collectItems rest
    (v :: r.1, r.2)
  | ContentItem.text s :: rest =>
    let r := collectItems rest
    (r.1, s :: r.2)
  | ContentItem.other :: rest => collectItems rest

/-- `extract_text_or_json_as_text` of `client_llm_best_practices.py`.
`json.dumps` is the external serializer, passed as `dumps`. -/
def extract_text_or_json_as_text (dumps : JVal → String)
    (content : List ContentItem) : String :=
  let r := collectItems content
  let json_items := r.1
  let texts := r.2
  if !json_items.isEmpty && texts.isEmpty then
    match json_items with
    | [j] => dumps j
    | _ => dumps (JVal.jarr json_items)
  else if !texts.isEmpty && json_items.isEmpty then
    String.intercalate "\n" texts
  else
    dumps (JVal.jobj [("json", JVal.jarr json_items), ("text", JVal.jarr (texts.map JVal.jstr))])

/-! ### The orchestration loop (`client_llm.py`, `TaskPilotAgent.chat`) -/

/-- One model-emitted tool request (`tc.id`, `tc.function.name`,
`tc.function.arguments` as the raw JSON string). -/
structure ToolCall where
  id : String
  name : String
  arguments : String
deriving DecidableEq

/-- One assistant message from the model: optional text content plus the
requested tool calls (`None` and `[]` are both falsy, embedded as `[]`). -/
structure ModelMsg where
  content : Option String
  tool_calls : List ToolCall
deriving DecidableEq

/-- One entry of the conversation history `messages`. -/
inductive Message where
  | system (content : String)
  | user (content : String)
  | assistant (msg : ModelMsg)
  | tool (tool_call_id : String) (content : String)
deriving DecidableEq

/-- `SYSTEM_INSTRUCTIONS` of `client_llm.py`. -/
def SYSTEM_INSTRUCTIONS : String :=
  "\n    You are a helpful agent that can manage tasks in a task management system.\n    You can help the user by using the available tools.\n    "

/-- The JSON text of an empty object, `"\x7b\x7d"`. -/
def jsonEmptyObject : String := String.mk ['{', '}']

/-- `json.loads(tc.function.arguments or "\x7b\x7d")` guarded by
`except json.JSONDecodeError: args = \x7b\x7d`.  `parse` is the external
JSON parser (returning `none` on a decode error) and `dflt` the empty
argument bag. -/
def resolveArgs {α : Type} (parse : String → Option α) (dflt : α) (s : String) : α :=
  match parse (if s = "" then jsonEmptyObject else s) with
  | some a => a
  | none => dflt

/-- The inner `for tc in msg.tool_calls` loop: execute every requested
tool in order and collect the tool-result messages. -/
def execTools {α : Type} (invoke : String → α → String) (parse : String → Option α)
    (dflt : α) (tcs : List ToolCall) : List Message :=
  tcs.map (fun tc => Message.tool tc.id (invoke tc.name (resolveArgs parse dflt tc.arguments)))

/-- The `while msg.tool_calls and loops < max_tool_loops` loop of `chat`,
with `fuel = max_tool_loops - loops` as the structural measure.  Returns
the last assistant message, the final history and the final `loops`. -/
def chatLoop {α : Type} (model : List Message → ModelMsg) (invoke : String → α → String)
    (parse : String → Option α) (dflt : α) :
    Nat → List Message → ModelMsg → Nat → ModelMsg × List Message × Nat
  | 0, messages, msg, loops => (msg, messages, loops)
  | fuel + 1, messages, msg, loops =>
    if msg.tool_calls.isEmpty then (msg, messages, loops)
    else
      let tool_results := execTools invoke parse dflt msg.tool_calls
      let messages2 := messages ++ tool_results
      let msg2 := model messages2
      let messages3 := messages2 ++ [Message.assistant msg2]
      chatLoop model invoke parse dflt fuel messages3 msg2 (loops + 1)

/-- Python `msg.content or "(no content)"`: `None` and `""` are falsy. -/
def orNoContent : Option String → String
  | none => "(no content)"
  | some c => if c = "" then "(no content)" else c

/-- `TaskPilotAgent.chat` of `client_llm.py`, instrumented to also return
its local `messages` history and `loops` counter.  The model, the tool
invoker and the JSON parser are the external collaborators. -/
def chat_run {α : Type} (model : List Message → ModelMsg) (invoke : String → α → String)
    (parse : String → Option α) (dflt : α) (user_prompt : String)
    (max_tool_loops : Nat) : String × List Message × Nat :=
  let messages : List Message :=
    [Message.system SYSTEM_INSTRUCTIONS, Message.user user_prompt]
  let msg0 := model messages
  let messages1 := messages ++ [Message.assistant msg0]
  let r := chatLoop model invoke parse dflt max_tool_loops messages1 msg0 0
  (orNoContent r.1.content, r.2.1, r.2.2)

/-! ### `bulk_import` (spec only; not present under the sources) -/

/-- Modelled from the spec: the per-line step of `bulk_import` — trim the
line, skip it when empty, otherwise create a task from the trimmed line
and advance the created-task counter.  `gen n` is the external fresh-id
generator for the `n`-th created task. -/
def bulkStep (gen : Nat → String) (acc : Nat × Store) (line : String) : Nat × Store :=
  let t := pyStrip line
  if t = "" then acc
  else
    let task : Task := ⟨gen acc.1, t, false, []⟩
    (acc.1 + 1, Store.set acc.2 task.id task)

/-- Modelled from the spec: the `bulk_import(lines)` tool is described in
the specification (`bulk_import(lines) -> integer count created`: per
line, trims; skips and reports (does not fail) empty lines; reports
incremental progress after each created task; single persist at the end)
but no source file defines it.  The tool folds `bulkStep` over the lines
starting from a zero counter, returns the count of created tasks, and
persists the store once at the end. -/
def bulk_import (gen : Nat → String) (lines : List String) (store : Store) : OpResult Nat :=
  let r := lines.foldl (bulkStep gen) (0, store)
  ⟨Except.ok r.1, r.2, [r.2]⟩

/-- The tasks `bulk_import` creates from `lines` when the id counter
starts at `n`: one entry per line that is non-empty after trimming, in
input order. -/
def importedTasks (gen : Nat → String) : Nat → List String → List (String × Task)
  | _, [] => []
  | n, line :: rest =>
    if pyStrip line = "" then importedTasks gen n rest
    else (gen n, ⟨gen n, pyStrip line, false, []⟩) :: importedTasks gen (n + 1) rest

/-! ### Association-list lemmas for the store -/

theorem Store.get?_set_self (s : Store) (k : String) (v : Task) :
    Store.get? (Store.set s k v) k = some v := by
  induction s with
  | nil => simp [Store.set, Store.get?]
  | cons p rest ih =>
    by_cases h : p.1 == k
    · simp [Store.set, h, Store.get?]
    · simp [Store.set, h, Store.get?, ih]

theorem Store.get?_set_ne (s : Store) (k k' : String) (v : Task) (h : k' ≠ k) :
    Store.get? (Store.set s k v) k' = Store.get? s k' := by
  induction s with
  | nil =>
    simp [Store.set, Store.get?]
    intro hk
    exact absurd hk.symm h
  | cons p rest ih =>
    by_cases hp : p.1 == k
    · have hk : ¬ (k == k') := by
        intro hb
        exact h (eq_of_beq hb).symm
      have hpk : p.1 = k := eq_of_beq hp
      simp [Store.set, hp, Store.get?, hk, hpk]
    · simp [Store.set, hp, Store.get?, ih]

theorem Store.set_eq_of_get? (s : Store) (k : String) (v : Task)
    (h : Store.get? s k = some v) : Store.set s k v = s := by
  induction s with
  | nil => simp [Store.get?] at h
  | cons p rest ih =>
    by_cases hp : p.1 == k
    · have hpk : p.1 = k := eq_of_beq hp
      simp [Store.get?, hp] at h
      cases p
      simp_all [Store.set]
    · simp [Store.get?, hp] at h
      simp [Store.set, hp, ih h]

theorem Store.get?_isSome_eq_containsKey (s : Store) (k : String) :
    (Store.get? s k).isSome = Store.containsKey s k := by
  induction s with
  | nil => simp [Store.get?, Store.containsKey]
  | cons p rest ih =>
    by_cases hp : p.1 == k
    · simp [Store.get?, Store.containsKey, hp]
    · simp [Store.get?, Store.containsKey, hp, ih]

theorem Store.get?_eq_none_of_not_containsKey (s : Store) (k : String)
    (h : Store.containsKey s k = false) : Store.get? s k = none := by
  have hs := Store.get?_isSome_eq_containsKey s k
  rw [h] at hs
  exact Option.not_isSome_iff_eq_none.mp (by simp [hs])

theorem Store.get?_eq_some_of_containsKey (s : Store) (k : String)
    (h : Store.containsKey s k = true) : ∃ v, Store.get? s k = some v := by
  have hs := Store.get?_isSome_eq_containsKey s k
  rw [h] at hs
  exact Option.isSome_iff_exists.mp hs

theorem Store.get?_mem (s : Store) (k : String) (v : Task)
    (h : Store.get? s k = some v) : (k, v) ∈ s := by
  induction s with
  | nil => simp [Store.get?] at h
  | cons p rest ih =>
    by_cases hp : p.1 == k
    · simp [Store.get?, hp] at h
      have hpk : p.1 = k := eq_of_beq hp
      have hkv : (k, v) = p := by
        cases p
        simp at hpk ⊢
        exact ⟨hpk.symm, h.symm⟩
      rw [hkv]
      exact List.mem_cons_self _ _
    · simp [Store.get?, hp] at h
      exact List.mem_cons_of_mem _ (ih h)

theorem Store.mem_set (s : Store) (k : String) (v : Task) (p : String × Task)
    (h : p ∈ Store.set s k v) : p = (k, v) ∨ p ∈ s := by
  induction s with
  | nil =>
    simp [Store.set] at h
    exact Or.inl h
  | cons q rest ih =>
    by_cases hq : q.1 == k
    · simp [Store.set, hq] at h
      rcases h with h | h
      · exact Or.inl h
      · exact Or.inr (List.mem_cons_of_mem _ h)
    · simp [Store.set, hq] at h
      rcases h with h | h
      · exact Or.inr (by simp [h])
      · rcases ih h with h2 | h2
        · exact Or.inl h2
        · exact Or.inr (List.mem_cons_of_mem _ h2)

theorem Store.set_eq_append_of_not_containsKey (s : Store) (k : String) (v : Task)
    (h : Store.containsKey s k = false) : Store.set s k v = s ++ [(k, v)] := by
  induction s with
  | nil => simp [Store.set]
  | cons p rest ih =>
    simp [Store.containsKey] at h
    simp [Store.set, h.1, ih h.2]

/-! ### Claims about the task tools -/

/-- Claim C2: `add_task` fails with an `InvalidArgument` error exactly when
the title is empty after trimming (a missing title included); otherwise it
returns the new task with the trimmed title, `done = false` and the
empty-after-trimming tag entries removed, stores it, and persists the
store before returning. -/
theorem add_task_spec (newId : String) (title : Option String)
    (tags : Option (List String)) (store : Store) :
    ((add_task newId title tags store).ret = Except.error "Title cannot be empty."
      ↔ pyStrip (title.getD "") = "")
    ∧ (pyStrip (title.getD "") ≠ "" →
        (add_task newId title tags store).ret
          = Except.ok ⟨newId, pyStrip (title.getD ""), false,
              (tags.getD []).filter (fun x => !(pyStrip x == ""))⟩
        ∧ (add_task newId title tags store).saves = [(add_task newId title tags store).store]
        ∧ Store.get? ((add_task newId title tags store).store) newId
            = some ⟨newId, pyStrip (title.getD ""), false,
                (tags.getD []).filter (fun x => !(pyStrip x == ""))⟩) := by
  by_cases h : pyStrip (title.getD "") = ""
  · constructor
    · simp [add_task, h]
    · intro hc
      exact absurd h hc
  · refine ⟨?_, fun _ => ⟨?_, ?_, ?_⟩⟩
    · simp [add_task, h]
    · simp [add_task, h]
    · simp [add_task, h]
    · simp [add_task, h, Store.get?_set_self]

/-- Witness for C2 at a concrete input: `" hi "` with tags `["  ", "a"]`. -/
theorem add_task_spec_witness :
    pyStrip ((some " hi ").getD "") ≠ ""
    ∧ (add_task "n" (some " hi ") (some ["  ", "a"]) []).ret
        = Except.ok ⟨"n", "hi", false, ["a"]⟩ :=
  ⟨by decide,
    ((add_task_spec "n" (some " hi ") (some ["  ", "a"]) []).2 (by decide)).1.trans (by decide)⟩

/-- Claim C3: `complete_task` on an absent id fails with the `NotFound`
error, leaves the store unchanged and persists nothing. -/
theorem complete_task_not_found (task_id : String) (store : Store)
    (h : Store.containsKey store task_id = false) :
    (complete_task task_id store).ret = Except.error ("Task not found: " ++ task_id)
    ∧ (complete_task task_id store).store = store
    ∧ (complete_task task_id store).saves = [] := by
  have hg := Store.get?_eq_none_of_not_containsKey store task_id h
  simp [complete_task, hg]

/-- Witness for C3: completing `"nonexistent"` in a one-task store. -/
theorem complete_task_not_found_witness :
    Store.containsKey [("a", ⟨"a", "A", false, []⟩)] "nonexistent" = false
    ∧ (complete_task "nonexistent" [("a", ⟨"a", "A", false, []⟩)]).store
        = [("a", ⟨"a", "A", false, []⟩)] :=
  ⟨by decide, (complete_task_not_found "nonexistent" _ (by decide)).2.1⟩

/-- Claim C4: `complete_task` is idempotent on a present id: both calls
return the same `done = true` task, the second call does not change the
store produced by the first, and it still persists that store. -/
theorem complete_task_idempotent (task_id : String) (store : Store)
    (h : Store.containsKey store task_id = true) :
    ∃ u : Task,
      (complete_task task_id store).ret = Except.ok u
      ∧ u.done = true
      ∧ (complete_task task_id ((complete_task task_id store).store)).ret = Except.ok u
      ∧ (complete_task task_id ((complete_task task_id store).store)).store
          = (complete_task task_id store).store
      ∧ (complete_task task_id ((complete_task task_id store).store)).saves
          = [(complete_task task_id store).store] := by
  obtain ⟨t0, hg⟩ := Store.get?_eq_some_of_containsKey store task_id h
  have hr1 : complete_task task_id store
      = ⟨Except.ok ⟨t0.id, t0.title, true, t0.tags⟩,
          Store.set store t0.id ⟨t0.id, t0.title, true, t0.tags⟩,
          [Store.set store t0.id ⟨t0.id, t0.title, true, t0.tags⟩]⟩ := by
    simp [complete_task, hg]
  have hself : Store.get? (Store.set store t0.id ⟨t0.id, t0.title, true, t0.tags⟩) t0.id
      = some ⟨t0.id, t0.title, true, t0.tags⟩ := Store.get?_set_self store t0.id _
  have hfix : Store.set (Store.set store t0.id ⟨t0.id, t0.title, true, t0.tags⟩) t0.id
        ⟨t0.id, t0.title, true, t0.tags⟩
      = Store.set store t0.id ⟨t0.id, t0.title, true, t0.tags⟩ :=
    Store.set_eq_of_get? _ _ _ hself
  have hr2 : complete_task task_id (Store.set store t0.id ⟨t0.id, t0.title, true, t0.tags⟩)
      = ⟨Except.ok ⟨t0.id, t0.title, true, t0.tags⟩,
          Store.set store t0.id ⟨t0.id, t0.title, true, t0.tags⟩,
          [Store.set store t0.id ⟨t0.id, t0.title, true, t0.tags⟩]⟩ := by
    by_cases hid : task_id = t0.id
    · rw [hid]
      simp [complete_task, hself, hfix]
    · have hne : Store.get? (Store.set store t0.id ⟨t0.id, t0.title, true, t0.tags⟩) task_id
          = some t0 :=
        (Store.get?_set_ne store t0.id task_id _ hid).trans hg
      simp [complete_task, hne, hfix]
  refine ⟨⟨t0.id, t0.title, true, t0.tags⟩, ?_, rfl, ?_, ?_, ?_⟩
  · simp [hr1]
  · simp [hr1, hr2]
  · simp [hr1, hr2]
  · simp [hr1, hr2]

/-- Witness for C4: completing the task `"a"` twice. -/
theorem complete_task_idempotent_witness :
    Store.containsKey [("a", ⟨"a", "A", false, []⟩)] "a" = true
    ∧ ∃ u : Task,
        (complete_task "a" [("a", ⟨"a", "A", false, []⟩)]).ret = Except.ok u
        ∧ u.done = true
        ∧ (complete_task "a" ((complete_task "a" [("a", ⟨"a", "A", false, []⟩)]).store)).ret
            = Except.ok u
        ∧ (complete_task "a" ((complete_task "a" [("a", ⟨"a", "A", false, []⟩)]).store)).store
            = (complete_task "a" [("a", ⟨"a", "A", false, []⟩)]).store
        ∧ (complete_task "a" ((complete_task "a" [("a", ⟨"a", "A", false, []⟩)]).store)).saves
            = [(complete_task "a" [("a", ⟨"a", "A", false, []⟩)]).store] :=
  ⟨by decide, complete_task_idempotent "a" _ (by decide)⟩

/-- Claim C5: `clear_completed` removes exactly the `done = true` entries,
keeps every `done = false` entry, returns the number removed, persists
only when that number is positive, and an immediately repeated call
returns 0 without changing or persisting anything. -/
theorem clear_completed_spec (store : Store) :
    (clear_completed store).ret = Except.ok (store.countP (fun p => p.2.done))
    ∧ (∀ p : String × Task,
        p ∈ (clear_completed store).store ↔ p ∈ store ∧ p.2.done = false)
    ∧ store.length = (clear_completed store).store.length + store.countP (fun p => p.2.done)
    ∧ (0 < store.countP (fun p => p.2.done) →
        (clear_completed store).saves = [(clear_completed store).store])
    ∧ (store.countP (fun p => p.2.done) = 0 → (clear_completed store).saves = [])
    ∧ (clear_completed ((clear_completed store).store)).ret = Except.ok 0
    ∧ (clear_completed ((clear_completed store).store)).store = (clear_completed store).store
    ∧ (clear_completed ((clear_completed store).store)).saves = [] := by
  have hlen : ∀ l : Store,
      l.length = (l.filter (fun p => !p.2.done)).length + l.countP (fun p => p.2.done) := by
    intro l
    induction l with
    | nil => simp
    | cons p rest ih =>
      by_cases hd : p.2.done = true
      · simp [List.countP_cons, hd, ih]
        omega
      · simp [List.countP_cons, hd, ih]
        omega
  have hzero : (store.filter (fun p => !p.2.done)).countP (fun p => p.2.done) = 0 := by
    induction store with
    | nil => simp
    | cons p rest ih =>
      by_cases hd : p.2.done = true
      · simp [hd, ih]
      · simp [List.countP_cons, hd, ih]
  have hidem : (store.filter (fun p => !p.2.done)).filter (fun p => !p.2.done)
      = store.filter (fun p => !p.2.done) := by
    induction store with
    | nil => simp
    | cons p rest ih =>
      by_cases hd : p.2.done = true
      · simp [hd, ih]
      · simp [hd, ih]
  refine ⟨rfl, ?_, ?_, ?_, ?_, ?_, ?_, ?_⟩
  · intro p
    simp [clear_completed, List.mem_filter]
  · simpa [clear_completed] using hlen store
  · intro hpos
    simp [clear_completed, Nat.pos_iff_ne_zero.mp hpos]
  · intro hz
    simp [clear_completed, hz]
  · simp [clear_completed, hzero]
  · simp [clear_completed, hidem]
  · simp [clear_completed, hzero]

/-- Witness for C5: one completed and one open task. -/
theorem clear_completed_spec_witness :
    0 < ([("a", ⟨"a", "A", true, []⟩), ("b", ⟨"b", "B", false, []⟩)] : Store).countP
        (fun p => p.2.done)
    ∧ (clear_completed [("a", ⟨"a", "A", true, []⟩), ("b", ⟨"b", "B", false, []⟩)]).saves
        = [(clear_completed [("a", ⟨"a", "A", true, []⟩), ("b", ⟨"b", "B", false, []⟩)]).store] :=
  ⟨by decide,
    (clear_completed_spec [("a", ⟨"a", "A", true, []⟩), ("b", ⟨"b", "B", false, []⟩)]).2.2.2.1
      (by decide)⟩

/-- Claim C9: every tool preserves the store invariant (each key equals
its record's id and every title is non-empty); under the invariant,
`complete_task` rewrites only the `done` field of the targeted entry and
touches no other entry, and `add_task` with a fresh id only appends. -/
theorem store_invariant_preserved (newId : String) (title : Option String)
    (tags : Option (List String)) (task_id : String) (store : Store)
    (hinv : StoreInv store) :
    StoreInv ((add_task newId title tags store).store)
    ∧ StoreInv ((complete_task task_id store).store)
    ∧ StoreInv ((clear_completed store).store)
    ∧ (∀ t0 : Task, Store.get? store task_id = some t0 →
        Store.get? ((complete_task task_id store).store) task_id
            = some ⟨task_id, t0.title, true, t0.tags⟩
        ∧ ∀ k, k ≠ task_id →
            Store.get? ((complete_task task_id store).store) k = Store.get? store k)
    ∧ (Store.containsKey store newId = false → pyStrip (title.getD "") ≠ "" →
        (add_task newId title tags store).store
          = store ++ [(newId, ⟨newId, pyStrip (title.getD ""), false,
              (tags.getD []).filter (fun x => !(pyStrip x == ""))⟩)]) := by
  refine ⟨?_, ?_, ?_, ?_, ?_⟩
  · by_cases ht : pyStrip (title.getD "") = ""
    · simpa [add_task, ht] using hinv
    · intro p hp
      simp only [add_task, ht, if_neg ht] at hp
      rcases Store.mem_set _ _ _ p hp with h1 | h1
      · rw [h1]
        exact ⟨rfl, ht⟩
      · exact hinv p h1
  · cases hg : Store.get? store task_id with
    | none => simpa [complete_task, hg] using hinv
    | some t0 =>
      have hmem := Store.get?_mem store task_id t0 hg
      have ht0 := hinv _ hmem
      intro p hp
      simp only [complete_task, hg] at hp
      rcases Store.mem_set _ _ _ p hp with h1 | h1
      · rw [h1]
        exact ⟨rfl, ht0.2⟩
      · exact hinv p h1
  · intro p hp
    simp only [clear_completed] at hp
    exact hinv p (List.mem_filter.mp hp).1
  · intro t0 hg
    have hmem := Store.get?_mem store task_id t0 hg
    have hid : task_id = t0.id := (hinv _ hmem).1
    constructor
    · simp only [complete_task, hg]
      rw [hid]
      exact Store.get?_set_self store t0.id _
    · intro k hk
      simp only [complete_task, hg]
      exact Store.get?_set_ne store t0.id k _ (by rw [← hid]; exact hk)
  · intro hfresh ht
    simp only [add_task, ht, if_neg ht]
    exact Store.set_eq_append_of_not_containsKey store newId _ hfresh

/-- Witness for C9: the invariant survives adding, completing and
clearing in a concrete two-task store. -/
theorem store_invariant_preserved_witness :
    StoreInv [("a", ⟨"a", "A", true, []⟩), ("b", ⟨"b", "B", false, []⟩)]
    ∧ StoreInv ((add_task "c" (some "C") none
          [("a", ⟨"a", "A", true, []⟩), ("b", ⟨"b", "B", false, []⟩)]).store)
    ∧ StoreInv ((complete_task "b"
          [("a", ⟨"a", "A", true, []⟩), ("b", ⟨"b", "B", false, []⟩)]).store)
    ∧ StoreInv ((clear_completed
          [("a", ⟨"a", "A", true, []⟩), ("b", ⟨"b", "B", false, []⟩)]).store) := by
  have h := store_invariant_preserved "c" (some "C") none "b"
    [("a", ⟨"a", "A", true, []⟩), ("b", ⟨"b", "B", false, []⟩)]
    (by decide)
  exact ⟨by decide, h.1, h.2.1, h.2.2.1⟩

/-- Counterexample for C8: the claim quantifies over every prior store
state, but adding title `"A"` to a store that already holds a task titled
`"A"` makes `list_tasks(include_done=true)` contain two tasks with that
title, not exactly one. -/
theorem add_task_duplicate_title_cex :
    ((list_tasks true ((add_task "b" (some "A") none
        [("a", ⟨"a", "A", false, []⟩)]).store)).filter
      (fun t => t.title == "A")).length = 2 := by decide

/-- Claim C8 (amended): for every valid title, fresh non-empty id and
prior store state in which no task already has that title, `add_task`
followed by `list_tasks(include_done=true)` yields exactly one task with
that title, and that task carries the fresh id, which is non-empty and
distinct from the id of every prior task. -/
theorem add_task_fresh_title_unique (newId title : String)
    (tags : Option (List String)) (store : Store)
    (htitle : pyStrip title ≠ "") (hid : newId ≠ "")
    (hfreshkey : Store.containsKey store newId = false)
    (hfresh : ∀ p ∈ store, p.2.id ≠ newId)
    (huniq : ∀ p ∈ store, p.2.title ≠ pyStrip title) :
    (list_tasks true ((add_task newId (some title) tags store).store)).filter
        (fun t => t.title == pyStrip title)
      = [⟨newId, pyStrip title, false, (tags.getD []).filter (fun x => !(pyStrip x == ""))⟩]
    ∧ ∀ t ∈ list_tasks true ((add_task newId (some title) tags store).store),
        t.title = pyStrip title →
          t.id = newId ∧ t.id ≠ "" ∧ ∀ p ∈ store, p.2.id ≠ t.id := by
  have hst : (add_task newId (some title) tags store).store
      = store ++ [(newId, ⟨newId, pyStrip title, false,
          (tags.getD []).filter (fun x => !(pyStrip x == ""))⟩)] := by
    simp only [add_task, Option.getD_some, if_neg htitle]
    exact Store.set_eq_append_of_not_containsKey store newId _ hfreshkey
  have hlist : list_tasks true ((add_task newId (some title) tags store).store)
      = store.map (fun p => p.2)
        ++ [⟨newId, pyStrip title, false,
              (tags.getD []).filter (fun x => !(pyStrip x == ""))⟩] := by
    rw [hst]
    simp [list_tasks]
  constructor
  · rw [hlist, List.filter_append]
    have h1 : (store.map (fun p => p.2)).filter (fun t => t.title == pyStrip title) = [] := by
      rw [List.filter_eq_nil_iff]
      intro t ht
      obtain ⟨p, hp, hpt⟩ := List.mem_map.mp ht
      simp only [beq_iff_eq]
      rw [← hpt]
      exact huniq p hp
    rw [h1]
    simp
  · intro t ht htt
    rw [hlist] at ht
    rcases List.mem_append.mp ht with h1 | h1
    · obtain ⟨p, hp, hpt⟩ := List.mem_map.mp h1
      exact absurd (by rw [hpt]; exact htt) (huniq p hp)
    · have : t = ⟨newId, pyStrip title, false,
          (tags.getD []).filter (fun x => !(pyStrip x == ""))⟩ := by
        simpa using h1
      rw [this]
      exact ⟨rfl, hid, hfresh⟩

/-- Witness for the amended C8 at a concrete input. -/
theorem add_task_fresh_title_unique_witness :
    pyStrip "B" ≠ "" ∧ ("b" : String) ≠ ""
    ∧ Store.containsKey [("a", ⟨"a", "A", false, []⟩)] "b" = false
    ∧ (list_tasks true ((add_task "b" (some "B") none
          [("a", ⟨"a", "A", false, []⟩)]).store)).filter
        (fun t => t.title == pyStrip "B")
      = [⟨"b", pyStrip "B", false, (([] : List String)).filter (fun x => !(pyStrip x == ""))⟩] :=
  ⟨by decide, by decide, by decide,
    (add_task_fresh_title_unique "b" "B" none [("a", ⟨"a", "A", false, []⟩)]
      (by decide) (by decide) (by decide)
      (by decide) (by decide)).1⟩

/-- Claim C6: the result normalization is a deterministic, order-preserving
function of the content items: the collected JSON payloads and texts are
the order-preserving projections of the item list, JSON-only results yield
the single value (or the array of all of them), text-only results yield
the joined text, and mixed results yield the `(json, text)` envelope. -/
theorem extract_normalization_spec (dumps : JVal → String) (content : List ContentItem) :
    (collectItems content).1
        = content.filterMap
            (fun c => match c with | ContentItem.json v => some v | _ => none)
    ∧ (collectItems content).2
        = content.filterMap
            (fun c => match c with | ContentItem.text s => some s | _ => none)
    ∧ ((collectItems content).2 = [] → ∀ j, (collectItems content).1 = [j] →
        extract_text_or_json_as_text dumps content = dumps j)
    ∧ ((collectItems content).2 = [] → 2 ≤ (collectItems content).1.length →
        extract_text_or_json_as_text dumps content = dumps (JVal.jarr (collectItems content).1))
    ∧ ((collectItems content).1 = [] → (collectItems content).2 ≠ [] →
        extract_text_or_json_as_text dumps content
          = String.intercalate "\n" (collectItems content).2)
    ∧ ((collectItems content).1 ≠ [] → (collectItems content).2 ≠ [] →
        extract_text_or_json_as_text dumps content
          = dumps (JVal.jobj [("json", JVal.jarr (collectItems content).1),
              ("text", JVal.jarr ((collectItems content).2.map JVal.jstr))])) := by
  refine ⟨?_, ?_, ?_, ?_, ?_, ?_⟩
  · induction content with
    | nil => simp [collectItems]
    | cons c rest ih => cases c <;> simp [collectItems, ih]
  · induction content with
    | nil => simp [collectItems]
    | cons c rest ih => cases c <;> simp [collectItems, ih]
  · intro hts j hj
    simp [extract_text_or_json_as_text, hts, hj]
  · intro hts hlen
    rcases hjs : (collectItems content).1 with _ | ⟨a, _ | ⟨b, t⟩⟩
    · rw [hjs] at hlen
      simp at hlen
    · rw [hjs] at hlen
      simp at hlen
    · simp [extract_text_or_json_as_text, hts, hjs]
  · intro hjs hts
    rcases hts2 : (collectItems content).2 with _ | ⟨a, t⟩
    · exact absurd hts2 hts
    · simp [extract_text_or_json_as_text, hjs, hts2]
  · intro hjs hts
    rcases hjs2 : (collectItems content).1 with _ | ⟨a, t⟩
    · exact absurd hjs2 hjs
    · rcases hts2 : (collectItems content).2 with _ | ⟨b, u⟩
      · exact absurd hts2 hts
      · simp [extract_text_or_json_as_text, hjs2, hts2]

/-- Witness for C6: one JSON item and one text item yield the envelope. -/
theorem extract_normalization_spec_witness :
    (collectItems [ContentItem.json (JVal.jnum 1), ContentItem.text "a"]).1 ≠ []
    ∧ (collectItems [ContentItem.json (JVal.jnum 1), ContentItem.text "a"]).2 ≠ []
    ∧ extract_text_or_json_as_text (fun _ => "J")
          [ContentItem.json (JVal.jnum 1), ContentItem.text "a"]
        = (fun _ => "J") (JVal.jobj
            [("json", JVal.jarr (collectItems
                [ContentItem.json (JVal.jnum 1), ContentItem.text "a"]).1),
             ("text", JVal.jarr ((collectItems
                [ContentItem.json (JVal.jnum 1), ContentItem.text "a"]).2.map JVal.jstr))]) :=
  ⟨by simp [collectItems], by simp [collectItems],
    (extract_normalization_spec (fun _ => "J")
        [ContentItem.json (JVal.jnum 1), ContentItem.text "a"]).2.2.2.2.2
      (by simp [collectItems]) (by simp [collectItems])⟩

/-! ### Lemmas about the orchestration loop -/

theorem orNoContent_ne_empty (o : Option String) : orNoContent o ≠ "" := by
  cases o with
  | none => simp [orNoContent]
  | some c =>
    by_cases hc : c = ""
    · simp [orNoContent, hc]
    · simp [orNoContent, hc]

theorem chatLoop_succ_step {α : Type} (model : List Message → ModelMsg)
    (invoke : String → α → String) (parse : String → Option α) (dflt : α)
    (fuel : Nat) (msgs : List Message) (msg : ModelMsg) (loops : Nat)
    (h : msg.tool_calls ≠ []) :
    chatLoop model invoke parse dflt (fuel + 1) msgs msg loops
      = chatLoop model invoke parse dflt fuel
          ((msgs ++ execTools invoke parse dflt msg.tool_calls)
            ++ [Message.assistant (model (msgs ++ execTools invoke parse dflt msg.tool_calls))])
          (model (msgs ++ execTools invoke parse dflt msg.tool_calls)) (loops + 1) := by
  have hne : msg.tool_calls.isEmpty = false := by
    cases hmc : msg.tool_calls with
    | nil => exact absurd hmc h
    | cons a t => rfl
  simp [chatLoop, hne]

theorem chatLoop_loops_count {α : Type} (model : List Message → ModelMsg)
    (invoke : String → α → String) (parse : String → Option α) (dflt : α)
    (h : ∀ ms, (model ms).tool_calls ≠ []) :
    ∀ (fuel : Nat) (msgs : List Message) (msg : ModelMsg) (loops : Nat),
      msg.tool_calls ≠ [] →
      (chatLoop model invoke parse dflt fuel msgs msg loops).2.2 = loops + fuel := by
  intro fuel
  induction fuel with
  | zero =>
    intro msgs msg loops hm
    simp [chatLoop]
  | succ f ih =>
    intro msgs msg loops hm
    rw [chatLoop_succ_step model invoke parse dflt f msgs msg loops hm]
    rw [ih _ _ _ (h _)]
    omega

theorem chatLoop_messages_mono {α : Type} (model : List Message → ModelMsg)
    (invoke : String → α → String) (parse : String → Option α) (dflt : α) :
    ∀ (fuel : Nat) (msgs : List Message) (msg : ModelMsg) (loops : Nat),
      ∃ suffix, (chatLoop model invoke parse dflt fuel msgs msg loops).2.1 = msgs ++ suffix := by
  intro fuel
  induction fuel with
  | zero =>
    intro msgs msg loops
    exact ⟨[], by simp [chatLoop]⟩
  | succ f ih =>
    intro msgs msg loops
    by_cases hm : msg.tool_calls = []
    · refine ⟨[], ?_⟩
      have hne : msg.tool_calls.isEmpty = true := by rw [hm]; rfl
      simp [chatLoop, hne]
    · rw [chatLoop_succ_step model invoke parse dflt f msgs msg loops hm]
      obtain ⟨suf, hsuf⟩ := ih
        ((msgs ++ execTools invoke parse dflt msg.tool_calls)
          ++ [Message.assistant (model (msgs ++ execTools invoke parse dflt msg.tool_calls))])
        (model (msgs ++ execTools invoke parse dflt msg.tool_calls)) (loops + 1)
      refine ⟨execTools invoke parse dflt msg.tool_calls
        ++ [Message.assistant (model (msgs ++ execTools invoke parse dflt msg.tool_calls))]
        ++ suf, ?_⟩
      rw [hsuf]
      simp

theorem chatLoop_loops_mono {α : Type} (model : List Message → ModelMsg)
    (invoke : String → α → String) (parse : String → Option α) (dflt : α) :
    ∀ (fuel : Nat) (msgs : List Message) (msg : ModelMsg) (loops : Nat),
      loops ≤ (chatLoop model invoke parse dflt fuel msgs msg loops).2.2 := by
  intro fuel
  induction fuel with
  | zero =>
    intro msgs msg loops
    simp [chatLoop]
  | succ f ih =>
    intro msgs msg loops
    by_cases hm : msg.tool_calls = []
    · have hne : msg.tool_calls.isEmpty = true := by rw [hm]; rfl
      simp [chatLoop, hne]
    · rw [chatLoop_succ_step model invoke parse dflt f msgs msg loops hm]
      exact le_trans (Nat.le_succ loops) (ih _ _ _)

/-- Claim C1: against a model that always requests tools, `chat` performs
exactly `max_tool_loops` tool-execution round trips (3 by default), then
terminates with a non-empty response string; the history it builds starts
with the seeded system and user messages. -/
theorem chat_runs_cap_rounds {α : Type} (model : List Message → ModelMsg)
    (invoke : String → α → String) (parse : String → Option α) (dflt : α)
    (user_prompt : String) (max_tool_loops : Nat)
    (h : ∀ ms, (model ms).tool_calls ≠ []) :
    (chat_run model invoke parse dflt user_prompt max_tool_loops).2.2 = max_tool_loops
    ∧ (chat_run model invoke parse dflt user_prompt max_tool_loops).1 ≠ ""
    ∧ (chat_run model invoke parse dflt user_prompt max_tool_loops).2.1.take 2
        = [Message.system SYSTEM_INSTRUCTIONS, Message.user user_prompt] := by
  refine ⟨?_, orNoContent_ne_empty _, ?_⟩
  · have := chatLoop_loops_count model invoke parse dflt h max_tool_loops
      ([Message.system SYSTEM_INSTRUCTIONS, Message.user user_prompt]
        ++ [Message.assistant (model
          [Message.system SYSTEM_INSTRUCTIONS, Message.user user_prompt])])
      (model [Message.system SYSTEM_INSTRUCTIONS, Message.user user_prompt]) 0 (h _)
    simpa [chat_run] using this
  · obtain ⟨suf, hsuf⟩ := chatLoop_messages_mono model invoke parse dflt max_tool_loops
      ([Message.system SYSTEM_INSTRUCTIONS, Message.user user_prompt]
        ++ [Message.assistant (model
          [Message.system SYSTEM_INSTRUCTIONS, Message.user user_prompt])])
      (model [Message.system SYSTEM_INSTRUCTIONS, Message.user user_prompt]) 0
    have hrun : (chat_run model invoke parse dflt user_prompt max_tool_loops).2.1
        = [Message.system SYSTEM_INSTRUCTIONS, Message.user user_prompt]
          ++ ([Message.assistant (model
            [Message.system SYSTEM_INSTRUCTIONS, Message.user user_prompt])] ++ suf) := by
      simp only [chat_run]
      rw [hsuf]
      simp
    rw [hrun]
    rfl

/-- Witness for C1: a stub model that always requests one tool call stops
after exactly the default 3 round trips. -/
theorem chat_runs_cap_rounds_witness :
    (chat_run (fun _ => ModelMsg.mk none [⟨"1", "list_tasks", ""⟩])
        (fun _ _ => "ok") (fun _ => (none : Option Unit)) () "hello" 3).2.2 = 3
    ∧ (chat_run (fun _ => ModelMsg.mk none [⟨"1", "list_tasks", ""⟩])
        (fun _ _ => "ok") (fun _ => (none : Option Unit)) () "hello" 3).1 ≠ "" :=
  ⟨(chat_runs_cap_rounds _ _ _ _ "hello" 3 (fun ms => by simp)).1,
    (chat_runs_cap_rounds _ _ _ _ "hello" 3 (fun ms => by simp)).2.1⟩

/-- Claim C10: a tool request whose argument string is not valid JSON (or
is empty) does not fail the run: the tool is invoked with the empty
argument bag, its result is appended to the history as a tool message,
and the loop continues (at least one round trip is performed). -/
theorem chat_bad_json_args {α : Type} (model : List Message → ModelMsg)
    (invoke : String → α → String) (parse : String → Option α) (dflt : α)
    (user_prompt : String) (max_tool_loops : Nat) (tc : ToolCall) (c0 : Option String)
    (hp : parse jsonEmptyObject = some dflt)
    (hbad : parse tc.arguments = none ∨ tc.arguments = "")
    (hmodel : model [Message.system SYSTEM_INSTRUCTIONS, Message.user user_prompt]
        = ⟨c0, [tc]⟩)
    (hcap : 1 ≤ max_tool_loops) :
    Message.tool tc.id (invoke tc.name dflt)
        ∈ (chat_run model invoke parse dflt user_prompt max_tool_loops).2.1
    ∧ 1 ≤ (chat_run model invoke parse dflt user_prompt max_tool_loops).2.2 := by
  have hres : resolveArgs parse dflt tc.arguments = dflt := by
    by_cases he : tc.arguments = ""
    · simp [resolveArgs, he, hp]
    · rcases hbad with hb | hb
      · simp [resolveArgs, he, hb]
      · exact absurd hb he
  obtain ⟨f, hf⟩ : ∃ f, max_tool_loops = f + 1 := ⟨max_tool_loops - 1, by omega⟩
  subst hf
  have hstep := chatLoop_succ_step model invoke parse dflt f
    ([Message.system SYSTEM_INSTRUCTIONS, Message.user user_prompt]
      ++ [Message.assistant (⟨c0, [tc]⟩ : ModelMsg)])
    ⟨c0, [tc]⟩ 0 (by simp)
  have hexec : execTools invoke parse dflt (ModelMsg.mk c0 [tc]).tool_calls
      = [Message.tool tc.id (invoke tc.name dflt)] := by
    simp [execTools, hres]
  constructor
  · have hrun : (chat_run model invoke parse dflt user_prompt (f + 1)).2.1
        = (chatLoop model invoke parse dflt (f + 1)
            ([Message.system SYSTEM_INSTRUCTIONS, Message.user user_prompt]
              ++ [Message.assistant (⟨c0, [tc]⟩ : ModelMsg)])
            ⟨c0, [tc]⟩ 0).2.1 := by
      simp only [chat_run, hmodel]
    rw [hrun, hstep, hexec]
    simp only [Nat.zero_add]
    obtain ⟨suf2, hsuf2⟩ := chatLoop_messages_mono model invoke parse dflt f
      (([Message.system SYSTEM_INSTRUCTIONS, Message.user user_prompt]
          ++ [Message.assistant (⟨c0, [tc]⟩ : ModelMsg)]
          ++ [Message.tool tc.id (invoke tc.name dflt)])
        ++ [Message.assistant (model
          ([Message.system SYSTEM_INSTRUCTIONS, Message.user user_prompt]
            ++ [Message.assistant (⟨c0, [tc]⟩ : ModelMsg)]
            ++ [Message.tool tc.id (invoke tc.name dflt)]))])
      (model ([Message.system SYSTEM_INSTRUCTIONS, Message.user user_prompt]
        ++ [Message.assistant (⟨c0, [tc]⟩ : ModelMsg)]
        ++ [Message.tool tc.id (invoke tc.name dflt)])) 1
    rw [hsuf2]
    simp
  · have hrun2 : (chat_run model invoke parse dflt user_prompt (f + 1)).2.2
        = (chatLoop model invoke parse dflt (f + 1)
            ([Message.system SYSTEM_INSTRUCTIONS, Message.user user_prompt]
              ++ [Message.assistant (⟨c0, [tc]⟩ : ModelMsg)])
            ⟨c0, [tc]⟩ 0).2.2 := by
      simp only [chat_run, hmodel]
    rw [hrun2, hstep]
    exact chatLoop_loops_mono model invoke parse dflt f _ _ 1

/-- Witness for C10: a tool call carrying the malformed argument string
`"not json"` is still executed, with the empty bag. -/
theorem chat_bad_json_args_witness :
    (fun s => if s == jsonEmptyObject then some () else (none : Option Unit)) jsonEmptyObject
        = some ()
    ∧ ((fun s => if s == jsonEmptyObject then some () else (none : Option Unit)) "not json"
        = none ∨ ("not json" : String) = "")
    ∧ Message.tool "1" ((fun (_ : String) (_ : Unit) => "ran") "list_tasks" ())
        ∈ (chat_run (fun _ => ModelMsg.mk none [⟨"1", "list_tasks", "not json"⟩])
            (fun _ _ => "ran")
            (fun s => if s == jsonEmptyObject then some () else (none : Option Unit))
            () "hola" 3).2.1 :=
  ⟨by decide, Or.inl (by decide),
    (chat_bad_json_args
        (fun _ => ModelMsg.mk none [⟨"1", "list_tasks", "not json"⟩])
        (fun _ _ => "ran")
        (fun s => if s == jsonEmptyObject then some () else (none : Option Unit))
        () "hola" 3 ⟨"1", "list_tasks", "not json"⟩ none
        (by decide) (Or.inl (by decide)) rfl (by omega)).1⟩

/-! ### Lemmas for `bulk_import` -/

theorem Store.containsKey_append (s t : Store) (k : String) :
    Store.containsKey (s ++ t) k = (Store.containsKey s k || Store.containsKey t k) := by
  induction s with
  | nil => simp [Store.containsKey]
  | cons p rest ih => simp [Store.containsKey, ih, Bool.or_assoc]

theorem bulk_import_foldl (gen : Nat → String) (hinj : Function.Injective gen) :
    ∀ (lines : List String) (n : Nat) (store : Store),
      (∀ m, n ≤ m → Store.containsKey store (gen m) = false) →
      lines.foldl (bulkStep gen) (n, store)
        = (n + lines.countP (fun l => !(pyStrip l == "")),
           store ++ importedTasks gen n lines) := by
  intro lines
  induction lines with
  | nil =>
    intro n store hfresh
    simp [importedTasks]
  | cons l rest ih =>
    intro n store hfresh
    by_cases hl : pyStrip l = ""
    · have hstep : bulkStep gen (n, store) l = (n, store) := by
        simp [bulkStep, hl]
      rw [List.foldl_cons, hstep, ih n store hfresh]
      simp [importedTasks, hl, List.countP_cons]
    · have hfresh2 : ∀ m, n + 1 ≤ m →
          Store.containsKey (store ++ [(gen n, (⟨gen n, pyStrip l, false, []⟩ : Task))])
            (gen m) = false := by
        intro m hm
        rw [Store.containsKey_append]
        have h1 : Store.containsKey store (gen m) = false := hfresh m (by omega)
        have h2 : Store.containsKey [(gen n, (⟨gen n, pyStrip l, false, []⟩ : Task))]
            (gen m) = false := by
          have hne : gen n ≠ gen m := by
            intro he
            have := hinj he
            omega
          simp [Store.containsKey]
          exact hne
        rw [h1, h2]
        rfl
      have hstep : bulkStep gen (n, store) l
          = (n + 1, store ++ [(gen n, (⟨gen n, pyStrip l, false, []⟩ : Task))]) := by
        simp only [bulkStep, if_neg hl]
        rw [Store.set_eq_append_of_not_containsKey store (gen n) _ (hfresh n le_rfl)]
      have ih2 := ih (n + 1) (store ++ [(gen n, (⟨gen n, pyStrip l, false, []⟩ : Task))]) hfresh2
      have hb : (pyStrip l == "") = false := by
        rw [beq_eq_false_iff_ne]
        exact hl
      rw [List.foldl_cons, hstep, ih2]
      simp only [importedTasks, if_neg hl, List.countP_cons, hb, Bool.not_false, if_true,
        Prod.mk.injEq]
      constructor
      · omega
      · simp

theorem importedTasks_titles (gen : Nat → String) :
    ∀ (lines : List String) (n : Nat),
      (importedTasks gen n lines).map (fun p => p.2.title)
        = (lines.map pyStrip).filter (fun t => !(t == "")) := by
  intro lines
  induction lines with
  | nil =>
    intro n
    simp [importedTasks]
  | cons l rest ih =>
    intro n
    by_cases hl : pyStrip l = ""
    · simp [importedTasks, hl, ih]
    · simp [importedTasks, hl, ih]

/-- Claim C7 (spec-modelled): `bulk_import` trims each line, skips the
lines that are empty after trimming, creates one task per remaining line
(in input order, with the trimmed line as title), returns the count of
created tasks and persists the store exactly once; on
`["A", "", "  ", "B"]` it creates exactly the tasks `"A"` and `"B"` and
returns 2. -/
theorem bulk_import_spec (gen : Nat → String) (lines : List String) (store : Store)
    (hinj : Function.Injective gen)
    (hfresh : ∀ m, Store.containsKey store (gen m) = false) :
    (bulk_import gen lines store).ret
        = Except.ok (lines.countP (fun l => !(pyStrip l == "")))
    ∧ (bulk_import gen lines store).store = store ++ importedTasks gen 0 lines
    ∧ (bulk_import gen lines store).saves = [(bulk_import gen lines store).store]
    ∧ (importedTasks gen 0 lines).map (fun p => p.2.title)
        = (lines.map pyStrip).filter (fun t => !(t == "")) := by
  have hfold := bulk_import_foldl gen hinj lines 0 store (fun m _ => hfresh m)
  refine ⟨?_, ?_, rfl, importedTasks_titles gen lines 0⟩
  · simp [bulk_import, hfold]
  · simp [bulk_import, hfold]

/-- Witness for C7: the scenario `["A", "", "  ", "B"]` on an empty store
with the fresh-id generator `n ↦ "x" * (n+1)`. -/
theorem bulk_import_spec_witness :
    (bulk_import (fun n => String.mk (List.replicate (n + 1) 'x'))
        ["A", "", "  ", "B"] []).ret = Except.ok 2
    ∧ (bulk_import (fun n => String.mk (List.replicate (n + 1) 'x'))
        ["A", "", "  ", "B"] []).store
      = [] ++ importedTasks (fun n => String.mk (List.replicate (n + 1) 'x')) 0
          ["A", "", "  ", "B"]
    ∧ (importedTasks (fun n => String.mk (List.replicate (n + 1) 'x')) 0
          ["A", "", "  ", "B"]).map (fun p => p.2.title) = ["A", "B"] := by
  have hinj : Function.Injective (fun n => String.mk (List.replicate (n + 1) 'x')) := by
    intro a b h
    have h2 : List.replicate (a + 1) 'x' = List.replicate (b + 1) 'x' := congrArg String.data h
    have h3 := congrArg List.length h2
    simp at h3
    exact h3
  have h := bulk_import_spec (fun n => String.mk (List.replicate (n + 1) 'x'))
    ["A", "", "  ", "B"] [] hinj (fun m => rfl)
  exact ⟨h.1.trans (by decide), h.2.1, h.2.2.2.trans (by decide)⟩

end TaskPilot
